import Mathlib

/-!
Verification of the IRIS repository's detection/depth pipeline arithmetic.

The definitions below are shallow embeddings of the Python sources:
* `src/COCO/YOLO.py` (list-based label table, τ₁ = 0.5 thresholding, plain NMS),
* `src/COCO/box_estimation.py` (dict label table, heuristic distance, class-offset NMS),
* `src/COCO/live.py` (dict label table, depth-map fusion, plain NMS),
* `src/notebooks/live-detect-TFlite.py` (depth-map sampling and 1000/depth distance),
* `src/models/unzip.py` (train/val split of image/label pairs),
* `src/models/merge.py` (label-file class-id rewriting).

Machine floats are modelled as rationals, numpy tensors as index functions,
Python lists as Lean lists, and Python dicts as association lists.
-/

namespace IRIS

/-! ## Definitions: distance estimation -/

/-- Focal-length constant from `src/COCO/box_estimation.py` line 50 (`FOCAL_LENGTH = 700.0`). -/
def FOCAL_LENGTH : ℚ := 700

/-- `estimate_distance` from `src/COCO/box_estimation.py` lines 52-56:
returns 0 when the apparent pixel height is non-positive, otherwise
`(known_height * FOCAL_LENGTH) / apparent_height_pixels`. -/
def estimate_distance (known_height apparent_height_pixels : ℚ) : ℚ :=
  if apparent_height_pixels ≤ 0 then 0
  else (known_height * FOCAL_LENGTH) / apparent_height_pixels

/-- Depth-map sampling from `src/notebooks/live-detect-TFlite.py` lines 75-83:
the integer (floor-division) center of the corner-form box `(x1,y1,x2,y2)`,
clamped to the frame bounds, indexed into the depth map as `depth_map[cy, cx]`. -/
def depthSample (depth_map : Int → Int → ℚ) (frameW frameH x1 y1 x2 y2 : Int) : ℚ :=
  let center_x := (x1 + x2).fdiv 2
  let center_y := (y1 + y2).fdiv 2
  let cx := min (max center_x 0) (frameW - 1)
  let cy := min (max center_y 0) (frameH - 1)
  depth_map cy cx

/-- Distance from depth, `src/notebooks/live-detect-TFlite.py` line 87:
`distance = 1000.0 / depth_value if depth_value > 0 else 0`. -/
def depthDistance (depth_map : Int → Int → ℚ) (frameW frameH x1 y1 x2 y2 : Int) : ℚ :=
  let depth_value := depthSample depth_map frameW frameH x1 y1 x2 y2
  if 0 < depth_value then 1000 / depth_value else 0

/-! ## Definitions: label tables -/

/-- The 80 COCO class names, in order, from `src/COCO/YOLO.py` lines 10-20.
The dict literals in `box_estimation.py` lines 8-26 and `live.py` lines 9-27 map the
keys `0`..`79` to exactly these names in the same order. -/
def cocoNames : List String :=
  ["person", "bicycle", "car", "motorcycle", "airplane", "bus", "train", "truck", "boat",
   "traffic light", "fire hydrant", "stop sign", "parking meter", "bench", "bird", "cat",
   "dog", "horse", "sheep", "cow", "elephant", "bear", "zebra", "giraffe", "backpack",
   "umbrella", "handbag", "tie", "suitcase", "frisbee", "skis", "snowboard", "sports ball",
   "kite", "baseball bat", "baseball glove", "skateboard", "surfboard", "tennis racket",
   "bottle", "wine glass", "cup", "fork", "knife", "spoon", "bowl", "banana", "apple",
   "sandwich", "orange", "broccoli", "carrot", "hot dog", "pizza", "donut", "cake",
   "chair", "couch", "potted plant", "bed", "dining table", "toilet", "tv", "laptop",
   "mouse", "remote", "keyboard", "cell phone", "microwave", "oven", "toaster", "sink",
   "refrigerator", "book", "clock", "vase", "scissors", "teddy bear", "hair drier",
   "toothbrush"]

/-- Python list indexing `CLASSES[cls_id]` as used in `src/COCO/YOLO.py` line 117:
a non-negative index must be < len, a negative index wraps once from the end,
and any other index raises `IndexError` (modelled as `none`). -/
def pyListGet (l : List String) (i : Int) : Option String :=
  if 0 ≤ i then l[i.toNat]?
  else if (l.length : Int) + i < 0 then none
  else l[((l.length : Int) + i).toNat]?

/-- Builds the association list of a Python dict literal whose keys are consecutive
integers starting from `k` (the `CLASSES` dicts of `box_estimation.py` / `live.py`). -/
def mkDict : Int → List String → List (Int × String)
  | _, [] => []
  | k, n :: ns => (k, n) :: mkDict (k + 1) ns

/-- The `CLASSES` dict of `box_estimation.py` / `live.py`: keys 0..79 to the COCO names. -/
def cocoDict : List (Int × String) := mkDict 0 cocoNames

/-- Python `d.get(key, default)` on an association-list dict model. -/
def dictGetD (d : List (Int × String)) (i : Int) (dflt : String) : String :=
  match d.lookup i with
  | some s => s
  | none => dflt

/-- `CLASSES.get(class_id, "Unknown")` from `box_estimation.py` line 147 / `live.py` line 159. -/
def classLabel (i : Int) : String := dictGetD cocoDict i "Unknown"

/-! ## Definitions: raw-output tensor and detection postprocessor

`YOLO.py` lines 73-89 (and the same shape in `box_estimation.py` lines 96-111,
`live.py` lines 76-89): the raw output `out` is transposed when `out.shape[0] == 84`,
split into box columns 0-3 and score columns 4.., then per anchor
`class_id = argmax(scores)`, `confidence = max(scores)`, and anchors with
`confidence > threshold` are kept. -/

/-- A 2-d numpy array: a row count, a column count, and an entry function. -/
structure Tensor where
  rows : Nat
  cols : Nat
  entry : Nat → Nat → ℚ

/-- `out.transpose(1, 0)`. -/
def Tensor.transposeT (t : Tensor) : Tensor :=
  ⟨t.cols, t.rows, fun i j => t.entry j i⟩

/-- The layout-normalization step `if out.shape[0] == 84: out = out.transpose(1, 0)`
(`YOLO.py` lines 74-75, `box_estimation.py` lines 98-99, `live.py` lines 77-78). -/
def normalizeLayout (t : Tensor) : Tensor :=
  if t.rows = 84 then t.transposeT else t

/-- Binary maximum on rationals (float `max` semantics for comparable values). -/
def qmax (a b : ℚ) : ℚ := if a ≤ b then b else a

/-- `np.max` over a row of scores (a non-empty list in the code; 0 for empty). -/
def listMax : List ℚ → ℚ
  | [] => 0
  | x :: xs => xs.foldl qmax x

/-- Accumulator loop of `np.argmax`: first index of the maximum wins. -/
def argmaxGo : List ℚ → Nat → Nat → ℚ → Nat
  | [], _, best, _ => best
  | x :: xs, i, best, bv =>
    if bv < x then argmaxGo xs (i + 1) i x else argmaxGo xs (i + 1) best bv

/-- `np.argmax` over a row of scores (first index of the maximum; 0 for empty). -/
def argmaxList : List ℚ → Nat
  | [] => 0
  | x :: xs => argmaxGo xs 1 0 x

/-- One surviving anchor: center-form box, class id, confidence. -/
structure Det where
  cx : ℚ
  cy : ℚ
  w : ℚ
  h : ℚ
  classId : Nat
  conf : ℚ
deriving DecidableEq

/-- The score columns of anchor `i`: `scores = out[:, 4:]` read along row `i`. -/
def rowScores (t : Tensor) (i : Nat) : List ℚ :=
  (List.range (t.cols - 4)).map (fun k => t.entry i (k + 4))

/-- One anchor after argmax/max/thresholding: kept iff its max class score
exceeds the threshold `τ` (the code filters with `confidences > threshold`). -/
def anchorDet (τ : ℚ) (t : Tensor) (i : Nat) : Option Det :=
  let scores := rowScores t i
  let conf := listMax scores
  if τ < conf then
    some ⟨t.entry i 0, t.entry i 1, t.entry i 2, t.entry i 3, argmaxList scores, conf⟩
  else none

/-- The detection postprocessor up to thresholding: layout normalization,
box/score split, argmax class id, max confidence, threshold filter. -/
def postprocess (τ : ℚ) (t : Tensor) : List Det :=
  let u := normalizeLayout t
  (List.range u.rows).filterMap (anchorDet τ u)

/-- Confidence threshold τ₁ = 0.5 of `YOLO.py` line 85. -/
def tauYOLO : ℚ := mkRat 1 2

/-- Confidence threshold τ₁ = 0.4 of `box_estimation.py` line 107 / `live.py` line 86. -/
def tauBoxEst : ℚ := mkRat 2 5

/-- An 84×84 raw output with a single non-zero entry at row 0, column 4
(i.e. anchor 0 has class-0 score 1 in the (anchor, attribute) reading). -/
def tensor84 : Tensor :=
  ⟨84, 84, fun i j => if i = 0 ∧ j = 4 then 1 else 0⟩

/-- A single anchor whose 80 class scores have maximum 0.49 (at score column 10;
box columns 0-3 hold 7, the other scores 0.25). -/
def anchor049 : Tensor :=
  ⟨1, 84, fun _ j => if j < 4 then 7 else if j = 10 then mkRat 49 100 else mkRat 1 4⟩

/-- A single anchor whose 80 class scores have maximum 0.51 (at score column 10). -/
def anchor051 : Tensor :=
  ⟨1, 84, fun _ j => if j < 4 then 7 else if j = 10 then mkRat 51 100 else mkRat 1 4⟩

/-! ## Definitions: rescaling to frame coordinates (box_estimation.py lines 113-133)

`is_normalized = np.max(boxes) <= 2.0 if len(boxes) > 0 else False`; each box is
scaled either by the original frame size (normalized case) or by the ratio of
original frame size to model input size, then converted from center-form to
corner-form with Python `int()` truncation. -/

/-- A corner-form integer pixel box `[x, y, w, h]` as passed to `cv2.dnn.NMSBoxes`. -/
structure Box where
  x : Int
  y : Int
  w : Int
  h : Int
deriving DecidableEq

/-- Python `int()` on a float value: truncation toward zero. -/
def pyInt (q : ℚ) : Int := q.num.tdiv q.den

/-- `np.max(boxes)`: the maximum over all four coordinates of all boxes. -/
def maxCoords (boxes : List (ℚ × ℚ × ℚ × ℚ)) : ℚ :=
  listMax (boxes.foldr (fun b acc => b.1 :: b.2.1 :: b.2.2.1 :: b.2.2.2 :: acc) [])

/-- `is_normalized = np.max(boxes) <= 2.0 if len(boxes) > 0 else False` (line 113). -/
def isNormalizedHeur (boxes : List (ℚ × ℚ × ℚ × ℚ)) : Bool :=
  if boxes.isEmpty then false else decide (maxCoords boxes ≤ 2)

/-- One iteration of the rescale loop (lines 116-133): scale the center-form
coordinates, then `[int(cx - w/2), int(cy - h/2), int(w), int(h)]`. -/
def rescaleBox (isNorm : Bool) (origW origH inW inH : ℚ) (b : ℚ × ℚ × ℚ × ℚ) : Box :=
  let cx := if isNorm then b.1 * origW else b.1 * (origW / inW)
  let cy := if isNorm then b.2.1 * origH else b.2.1 * (origH / inH)
  let w := if isNorm then b.2.2.1 * origW else b.2.2.1 * (origW / inW)
  let h := if isNorm then b.2.2.2 * origH else b.2.2.2 * (origH / inH)
  ⟨pyInt (cx - w / 2), pyInt (cy - h / 2), pyInt w, pyInt h⟩

/-- The whole rescale loop over the post-threshold boxes (lines 113-133). -/
def rescaleBoxes (boxes : List (ℚ × ℚ × ℚ × ℚ)) (origW origH inW inH : ℚ) : List Box :=
  boxes.map (rescaleBox (isNormalizedHeur boxes) origW origH inW inH)

/-- Modelled from the spec's words for the C8 comparison, normalized branch:
"each center-form coordinate is multiplied by the original frame width/height",
then converted from center-form to corner-form. -/
def specNormalizedRescale (origW origH : ℚ) (b : ℚ × ℚ × ℚ × ℚ) : Box :=
  ⟨pyInt (b.1 * origW - b.2.2.1 * origW / 2),
   pyInt (b.2.1 * origH - b.2.2.2 * origH / 2),
   pyInt (b.2.2.1 * origW), pyInt (b.2.2.2 * origH)⟩

/-- Modelled from the spec's words for the C8 comparison, absolute-pixels branch:
"each coordinate is multiplied by the ratio of original frame size to model input
size", then converted from center-form to corner-form. -/
def specPixelRescale (origW origH inW inH : ℚ) (b : ℚ × ℚ × ℚ × ℚ) : Box :=
  ⟨pyInt (b.1 * (origW / inW) - b.2.2.1 * (origW / inW) / 2),
   pyInt (b.2.1 * (origH / inH) - b.2.2.2 * (origH / inH) / 2),
   pyInt (b.2.2.1 * (origW / inW)), pyInt (b.2.2.2 * (origH / inH))⟩

/-! ## Definitions: non-max suppression

`cv2.dnn.NMSBoxes(bboxes, scores, score_threshold, nms_threshold)` is external
library code; it is modelled here by its documented greedy algorithm: drop boxes
with score ≤ score_threshold, sort the rest by descending score, then keep each
candidate whose IoU with every already-kept box is at most nms_threshold,
returning the surviving indices into the input list. The nms_threshold is passed
as an integer fraction tn/td so the suppression test is integer arithmetic. -/

/-- Width of the intersection of two boxes (negative when they do not overlap). -/
def interW (a b : Box) : Int := min (a.x + a.w) (b.x + b.w) - max a.x b.x

/-- Height of the intersection of two boxes (negative when they do not overlap). -/
def interH (a b : Box) : Int := min (a.y + a.h) (b.y + b.h) - max a.y b.y

/-- Area of the intersection rectangle (0 when the boxes do not overlap). -/
def interArea (a b : Box) : Int := max 0 (interW a b) * max 0 (interH a b)

/-- Area of one box. -/
def boxArea (a : Box) : Int := a.w * a.h

/-- Area of the union of two boxes. -/
def unionArea (a b : Box) : Int := boxArea a + boxArea b - interArea a b

/-- Intersection-over-union (0 when the union is empty). -/
def iou (a b : Box) : ℚ :=
  if unionArea a b ≤ 0 then 0 else (interArea a b : ℚ) / (unionArea a b : ℚ)

/-- Integer-arithmetic form of the test `iou a b ≤ tn / td` (for `0 < td`, `0 ≤ tn`). -/
def iouLeB (a b : Box) (tn td : Int) : Bool :=
  if unionArea a b ≤ 0 then true
  else decide (interArea a b * td ≤ tn * unionArea a b)

/-- A candidate survives against the kept list if its IoU with every kept box is
at most the threshold. -/
def keepTest (tn td : Int) (kept : List Box) (b : Box) : Bool :=
  kept.all (fun k => iouLeB k b tn td)

/-- The greedy pass over candidates already sorted by descending score. -/
def nmsGreedy (tn td : Int) : List (Nat × Box) → List Box → List Nat
  | [], _ => []
  | (i, b) :: rest, kept =>
    if keepTest tn td kept b then i :: nmsGreedy tn td rest (b :: kept)
    else nmsGreedy tn td rest kept

/-- Insertion into a list sorted by descending score. -/
def insertDesc (p : Nat × Box × ℚ) : List (Nat × Box × ℚ) → List (Nat × Box × ℚ)
  | [] => [p]
  | q :: rest => if q.2.2 < p.2.2 then p :: q :: rest else q :: insertDesc p rest

/-- Insertion sort by descending score. -/
def sortDesc : List (Nat × Box × ℚ) → List (Nat × Box × ℚ)
  | [] => []
  | p :: rest => insertDesc p (sortDesc rest)

/-- `cv2.dnn.NMSBoxes`: score filter, descending sort, greedy suppression. -/
def nmsBoxes (cands : List (Box × ℚ)) (scoreThr : ℚ) (tn td : Int) : List Nat :=
  nmsGreedy tn td
    ((sortDesc (cands.enum.filter (fun p => decide (scoreThr < p.2.2)))).map
      (fun p => (p.1, p.2.1))) []

/-- `max_wh = 7680` from `box_estimation.py` line 136. -/
def max_wh : Int := 7680

/-- The class-offset trick of `box_estimation.py` lines 137-138: before NMS each
box is shifted by `class_id * max_wh` in both x and y so different classes live in
disjoint coordinate bands. -/
def offsetBox (classId : Nat) (b : Box) : Box :=
  ⟨b.x + classId * max_wh, b.y + classId * max_wh, b.w, b.h⟩

/-- The NMS step of `box_estimation.py` lines 135-140 on detections
(box, classId, confidence): `cv2.dnn.NMSBoxes(nms_boxes, confidences, 0.4, 0.45)`
over the class-offset boxes; τ₂ = 0.45 = 9/20. -/
def nmsClassOffset (dets : List (Box × Nat × ℚ)) : List Nat :=
  nmsBoxes (dets.map (fun d => (offsetBox d.2.1 d.1, d.2.2))) tauBoxEst 9 20

/-- The NMS step of `live.py` line 115 on detections (box, classId, confidence):
`cv2.dnn.NMSBoxes(cv2_boxes, confidences, 0.4, 0.4)` with no class offset;
τ₂ = 0.4 = 2/5. -/
def nmsPlain (dets : List (Box × Nat × ℚ)) : List Nat :=
  nmsBoxes (dets.map (fun d => (d.1, d.2.2))) tauBoxEst 2 5

/-- One frame of `box_estimation.py` lines 96-164: postprocess with τ₁ = 0.4,
rescale to frame coordinates, class-offset NMS, then one overlay
(box, label, confidence) per surviving index. -/
def overlaysBoxEst (t : Tensor) (origW origH inW inH : ℚ) : List (Box × String × ℚ) :=
  let dets := postprocess tauBoxEst t
  let cv2boxes := rescaleBoxes (dets.map (fun d => (d.cx, d.cy, d.w, d.h))) origW origH inW inH
  let nmsIn := (cv2boxes.zip dets).map (fun p => (p.1, p.2.classId, p.2.conf))
  let indices := nmsClassOffset nmsIn
  indices.filterMap (fun i =>
    (cv2boxes[i]?).bind (fun b =>
      (dets[i]?).map (fun d => (b, classLabel d.classId, d.conf))))

/-! ## Definitions: dataset split (src/models/unzip.py lines 43-94) -/

/-- A file path abstracted to the parts `unzip.py` uses: its directory components,
its basename stem (`os.path.splitext(os.path.basename(p))[0]`) and its extension. -/
structure PFile where
  dirs : List String
  stem : String
  ext : String
deriving DecidableEq

/-- The Roboflow metadata basenames skipped when building the label dict
(`unzip.py` line 47). -/
def metaStems : List String := ["readme.roboflow", "readme", "classes", "_darknet.labels"]

/-- `name.lower() not in [...]` (line 47): a txt file is metadata iff its lowercased
stem is one of the known metadata names. -/
def isMetaStem (s : String) : Bool := metaStems.contains s.toLower

/-- The label dictionary of `unzip.py` lines 43-48: maps a stem to the last
non-metadata txt file with that stem (later loop iterations overwrite earlier). -/
def labelDict : List PFile → String → Option PFile
  | [], _ => none
  | t :: rest, n =>
    match labelDict rest n with
    | some u => some u
    | none => if !isMetaStem t.stem && t.stem == n then some t else none

/-- `unzip.py` lines 51-57: each image whose stem resolves through the label dict
forms an (image, label) pair. -/
def pairsOf (images txts : List PFile) : List (PFile × PFile) :=
  images.filterMap (fun img => (labelDict txts img.stem).map (fun t => (img, t)))

/-- `num_train = 350` (`unzip.py` line 63). -/
def num_train : Nat := 350

/-- `num_val = 150` (`unzip.py` line 64). -/
def num_val : Nat := 150

/-- `train_pairs = pairs[:num_train]` (line 66). -/
def trainPairs (shuffled : List (PFile × PFile)) : List (PFile × PFile) :=
  shuffled.take num_train

/-- `val_pairs = pairs[num_train:num_train + num_val]` (line 67). -/
def valPairs (shuffled : List (PFile × PFile)) : List (PFile × PFile) :=
  (shuffled.drop num_train).take num_val

/-! ## Definitions: label-file class rewriting (src/models/merge.py lines 79-91) -/

/-- Tokenizer core of Python `str.split()` on a character list: splits on runs of
whitespace and keeps only non-empty tokens; `acc` is the current token reversed. -/
def splitAux : List Char → List Char → List (List Char)
  | acc, [] => if acc.isEmpty then [] else [acc.reverse]
  | acc, c :: rest =>
    if c.isWhitespace then
      if acc.isEmpty then splitAux [] rest else acc.reverse :: splitAux [] rest
    else splitAux (c :: acc) rest

/-- `line.split()` with no separator argument. -/
def pySplit (s : List Char) : List (List Char) := splitAux [] s

/-- `line.strip()`: drop leading and trailing whitespace. -/
def pyStrip (s : List Char) : List Char :=
  ((s.dropWhile Char.isWhitespace).reverse.dropWhile Char.isWhitespace).reverse

/-- `" ".join(tokens)`. -/
def joinSp : List (List Char) → List Char
  | [] => []
  | [t] => t
  | t :: ts => t ++ ' ' :: joinSp ts

/-- `merge.py` lines 84-88 for one label line: strip, split on whitespace; if the
line has fields, replace the first with the class-id token and join with spaces;
otherwise the line is dropped. -/
def processLine (idTok : List Char) (line : List Char) : Option (List Char) :=
  match pySplit (pyStrip line) with
  | [] => none
  | _ :: rest => some (joinSp (idTok :: rest))

/-- `merge.py` lines 83-91: the lines written to the merged label file. -/
def mergeLines (idTok : List Char) (lines : List (List Char)) : List (List Char) :=
  lines.filterMap (processLine idTok)

/-! ## Theorems -/

theorem mkDict_lookup_none (i : Int) : ∀ (k : Int) (ns : List String),
    (i < k ∨ k + ns.length ≤ i) → (mkDict k ns).lookup i = none := by
  intro k ns
  induction ns generalizing k with
  | nil => intro _; rfl
  | cons n ns ih =>
    intro h
    have hne : i ≠ k := by
      rcases h with h | h
      · omega
      · simp only [List.length_cons] at h; omega
    have hbeq : (i == k) = false := beq_eq_false_iff_ne.mpr hne
    simp only [mkDict, List.lookup, hbeq]
    apply ih
    simp only [List.length_cons] at h
    omega

/-- C5: `estimate_distance` returns 0 whenever the apparent pixel height is ≤ 0
(no division is performed), and otherwise returns `(known_height * 700) / apparent`;
in particular `estimate_distance 170 0 = 0` exactly. -/
theorem C5_estimate_distance_spec (kh ap : ℚ) :
    (ap ≤ 0 → estimate_distance kh ap = 0) ∧
    (0 < ap → estimate_distance kh ap = (kh * 700) / ap) ∧
    estimate_distance 170 0 = 0 := by
  refine ⟨fun h => ?_, fun h => ?_, ?_⟩
  · simp only [estimate_distance, if_pos h]
  · simp only [estimate_distance, FOCAL_LENGTH, if_neg (not_le.mpr h)]
  · simp only [estimate_distance, if_pos le_rfl]

theorem C5_estimate_distance_spec_witness :
    estimate_distance 170 0 = 0 ∧ estimate_distance 170 85 = (170 * 700) / 85 :=
  ⟨(C5_estimate_distance_spec 170 0).2.2,
   (C5_estimate_distance_spec 170 85).2.1 (by norm_num)⟩

/-- C4: under the depth-map strategy, the distance is computed from the depth value
sampled at the integer, boundary-clamped pixel center of the box: it is 0 when the
sample is ≤ 0, equals `1000 / depthValue` when the sample is positive, and in
particular equals exactly 100 when the sample is 10; for the box
(x=100, y=50, w=40, h=80), i.e. corners (100,50)-(140,130), on a frame of at least
121×91 pixels, the sample is taken at pixel (x=120, y=90). -/
theorem C4_depth_strategy (dm : Int → Int → ℚ) (W H x1 y1 x2 y2 : Int) :
    (depthSample dm W H x1 y1 x2 y2 ≤ 0 → depthDistance dm W H x1 y1 x2 y2 = 0) ∧
    (0 < depthSample dm W H x1 y1 x2 y2 →
      depthDistance dm W H x1 y1 x2 y2 * depthSample dm W H x1 y1 x2 y2 = 1000) ∧
    (depthSample dm W H x1 y1 x2 y2 = 10 → depthDistance dm W H x1 y1 x2 y2 = 100) ∧
    (121 ≤ W → 91 ≤ H → depthSample dm W H 100 50 140 130 = dm 90 120) := by
  refine ⟨fun h => ?_, fun h => ?_, fun h => ?_, fun hW hH => ?_⟩
  · simp only [depthDistance, if_neg (not_lt.mpr h)]
  · simp only [depthDistance, if_pos h]
    exact div_mul_cancel₀ 1000 (ne_of_gt h)
  · have hpos : 0 < depthSample dm W H x1 y1 x2 y2 := by rw [h]; norm_num
    simp only [depthDistance, if_pos hpos, h]
    norm_num
  · simp only [depthSample]
    have hx : min (max ((100 + 140 : Int).fdiv 2) 0) (W - 1) = 120 := by
      have h2 : (100 + 140 : Int).fdiv 2 = 120 := by decide
      rw [h2]; omega
    have hy : min (max ((50 + 130 : Int).fdiv 2) 0) (H - 1) = 90 := by
      have h2 : (50 + 130 : Int).fdiv 2 = 90 := by decide
      rw [h2]; omega
    rw [hx, hy]

theorem C4_depth_strategy_witness :
    depthDistance (fun _ _ => (10 : ℚ)) 640 480 100 50 140 130 = 100 ∧
    depthDistance (fun _ _ => (0 : ℚ)) 640 480 0 0 10 10 = 0 :=
  ⟨(C4_depth_strategy (fun _ _ => (10 : ℚ)) 640 480 100 50 140 130).2.2.1 (by decide),
   (C4_depth_strategy (fun _ _ => (0 : ℚ)) 640 480 0 0 10 10).1 (by decide)⟩

/-- C2 counterexample: in `YOLO.py` line 117 the rendering-step label lookup is plain
Python list indexing `CLASSES[cls_id]`; at `classId = 80` (just outside
`[0, len(table)-1]`) it raises `IndexError` (modelled as `none`) instead of resolving
to the fallback label `"Unknown"`, so the claim as stated is false for that variant. -/
theorem C2_counterexample : pyListGet cocoNames 80 = none := by decide

/-- C2 (amended): the dict-based rendering lookups (`box_estimation.py` line 147,
`live.py` line 159) resolve every classId outside `[0, 79]` to the sentinel label
`"Unknown"` and never raise; the list-indexing lookup of `YOLO.py` line 117 returns a
label (does not raise) for every classId in `[0, 79]` — the only values argmax over
the 80 score columns can produce. -/
theorem C2_label_fallback (i : Int) :
    (i < 0 ∨ 80 ≤ i → classLabel i = "Unknown") ∧
    (0 ≤ i ∧ i < 80 → ∃ s, pyListGet cocoNames i = some s) := by
  constructor
  · intro h
    have hlen : cocoNames.length = 80 := by decide
    have hnone : cocoDict.lookup i = none := by
      apply mkDict_lookup_none
      rw [hlen]
      rcases h with h | h
      · left; exact h
      · right; omega
    simp only [classLabel, dictGetD, hnone]
  · rintro ⟨h0, h80⟩
    have hlen : cocoNames.length = 80 := by decide
    have hlt : i.toNat < cocoNames.length := by rw [hlen]; omega
    refine ⟨cocoNames[i.toNat], ?_⟩
    simp only [pyListGet, if_pos h0]
    exact List.getElem?_eq_getElem hlt

theorem C2_label_fallback_witness :
    classLabel (-5) = "Unknown" ∧ ∃ s, pyListGet cocoNames 3 = some s :=
  ⟨(C2_label_fallback (-5)).1 (Or.inl (by norm_num)),
   (C2_label_fallback 3).2 ⟨by norm_num, by norm_num⟩⟩

set_option maxRecDepth 100000 in
/-- C3 counterexample: for the 84×84 raw output `tensor84` (shape (84, N) with
N = 84), the postprocessor does not produce the same detections on the tensor and
on its transpose: the shape test `out.shape[0] == 84` fires on both, so the
transposed input is transposed back and read with boxes and scores swapped. -/
theorem C3_counterexample :
    postprocess tauYOLO tensor84 ≠ postprocess tauYOLO tensor84.transposeT := by
  decide

/-- C3 (amended): for every raw output tensor of shape (84, N) with N ≠ 84, the
postprocessor (layout normalization, box/score split, argmax class id, max
confidence, thresholding) produces exactly the same detections as on the
transposed (N, 84) tensor. For N = 84 the heuristic cannot distinguish the two
layouts and the property fails (see the counterexample). -/
theorem C3_transpose_equiv (τ : ℚ) (t : Tensor) (h84 : t.rows = 84) (hN : t.cols ≠ 84) :
    postprocess τ t = postprocess τ t.transposeT := by
  unfold postprocess
  have h1 : normalizeLayout t = t.transposeT := by
    unfold normalizeLayout; rw [if_pos h84]
  have h2 : normalizeLayout t.transposeT = t.transposeT := by
    unfold normalizeLayout
    rw [if_neg]
    show t.transposeT.rows ≠ 84
    simpa [Tensor.transposeT] using hN
  rw [h1, h2]

theorem C3_transpose_equiv_witness :
    postprocess tauYOLO (⟨84, 5, fun _ _ => 0⟩ : Tensor) =
      postprocess tauYOLO (⟨84, 5, fun _ _ => 0⟩ : Tensor).transposeT :=
  C3_transpose_equiv tauYOLO ⟨84, 5, fun _ _ => 0⟩ rfl (by decide)

set_option maxRecDepth 100000 in
/-- C6: the thresholding step of the postprocessor drops exactly the anchors whose
maximum class score is ≤ τ₁ = 0.5 (the code keeps `confidences > threshold`); in
particular an anchor with maximum class score 0.49 is dropped and one with maximum
0.51 survives thresholding. -/
theorem C6_thresholding :
    (∀ (t : Tensor) (i : Nat),
      anchorDet tauYOLO t i = none ↔ listMax (rowScores t i) ≤ tauYOLO) ∧
    postprocess tauYOLO anchor049 = [] ∧
    postprocess tauYOLO anchor051 ≠ [] := by
  refine ⟨fun t i => ?_, by decide, by decide⟩
  constructor
  · intro h
    by_contra hc
    push_neg at hc
    simp only [anchorDet, if_pos hc] at h
    exact Option.noConfusion h
  · intro h
    simp only [anchorDet, if_neg (not_lt.mpr h)]

theorem iou_offset_eq (c : Nat) (a b : Box) :
    iou (offsetBox c a) (offsetBox c b) = iou a b := by
  have hW : interW (offsetBox c a) (offsetBox c b) = interW a b := by
    simp only [interW, offsetBox]; omega
  have hH : interH (offsetBox c a) (offsetBox c b) = interH a b := by
    simp only [interH, offsetBox]; omega
  have hba : boxArea (offsetBox c a) = boxArea a := rfl
  have hbb : boxArea (offsetBox c b) = boxArea b := rfl
  simp only [iou, unionArea, interArea, hW, hH, hba, hbb]

theorem iouLeB_iff (a b : Box) (tn td : Int) (htd : 0 < td) (htn : 0 ≤ tn) :
    iouLeB a b tn td = true ↔ iou a b ≤ (tn : ℚ) / (td : ℚ) := by
  unfold iouLeB iou
  by_cases hu : unionArea a b ≤ 0
  · simp only [if_pos hu, true_iff]
    apply div_nonneg
    · exact_mod_cast htn
    · exact_mod_cast le_of_lt htd
  · simp only [if_neg hu, decide_eq_true_eq]
    have hu2 : (0 : ℚ) < (unionArea a b : ℚ) := by
      exact_mod_cast lt_of_not_le hu
    have htd2 : (0 : ℚ) < (td : ℚ) := by exact_mod_cast htd
    rw [div_le_div_iff₀ hu2 htd2]
    constructor <;> intro h <;> exact_mod_cast h

theorem nmsBoxes_pair (B1 B2 : Box) (s1 s2 thr : ℚ) (tn td : Int)
    (h1 : thr < s1) (h2 : thr < s2) (h21 : s2 < s1) :
    nmsBoxes [(B1, s1), (B2, s2)] thr tn td =
      if iouLeB B1 B2 tn td then [0, 1] else [0] := by
  unfold nmsBoxes
  have henum : ([(B1, s1), (B2, s2)] : List (Box × ℚ)).enum = [(0, B1, s1), (1, B2, s2)] := rfl
  rw [henum]
  have hfil : List.filter (fun p => decide (thr < p.2.2)) [(0, B1, s1), (1, B2, s2)] =
      [(0, B1, s1), (1, B2, s2)] := by
    rw [List.filter_cons_of_pos (by simpa using decide_eq_true h1),
        List.filter_cons_of_pos (by simpa using decide_eq_true h2),
        List.filter_nil]
  rw [hfil]
  have hsort : sortDesc [(0, B1, s1), (1, B2, s2)] = [(0, B1, s1), (1, B2, s2)] := by
    simp only [sortDesc, insertDesc]
    rw [if_pos h21]
  rw [hsort]
  simp only [List.map]
  by_cases hio : iouLeB B1 B2 tn td = true
  · rw [if_pos hio]
    simp [nmsGreedy, keepTest, hio]
  · rw [if_neg hio]
    have hio2 : iouLeB B1 B2 tn td = false := by rwa [Bool.not_eq_true] at hio
    simp [nmsGreedy, keepTest, hio2]

/-- C1 counterexample: in `live.py` line 115 the NMS step is a single
`cv2.dnn.NMSBoxes` call with no class offset, so two boxes with identical geometry
but different classIds (0 and 1, confidences 0.9 and 0.8, both above τ₁) do NOT both
survive: only index 0 survives, refuting the claim for that cited NMS step. -/
theorem C1_counterexample :
    nmsPlain [(⟨10, 10, 20, 20⟩, 0, mkRat 9 10), (⟨10, 10, 20, 20⟩, 1, mkRat 4 5)] = [0] := by
  decide

/-- C1 (amended): for the class-offset NMS of `box_estimation.py` (boxes shifted by
classId·7680 before one suppression pass, τ₂ = 0.45), for any pair of
post-threshold detections with distinct confidences: if they share a classId and
their IoU exceeds τ₂ exactly the higher-confidence one survives, and if they have
different classIds but identical geometry — the box being positive and no larger
than the 7680-pixel class band — both survive. For the plain NMS of `live.py`
(τ₂ = 0.4, no offset), any pair with IoU above τ₂ collapses to the
higher-confidence box regardless of classIds, so cross-class survival fails there. -/
theorem C1_nms_by_class :
    (∀ (b1 b2 : Box) (c : Nat) (s1 s2 : ℚ),
      tauBoxEst < s2 → s2 < s1 → (9 : ℚ) / 20 < iou b1 b2 →
      nmsClassOffset [(b1, c, s1), (b2, c, s2)] = [0]) ∧
    (∀ (b : Box) (c1 c2 : Nat) (s1 s2 : ℚ),
      c1 ≠ c2 → 0 < b.w → b.w ≤ max_wh → 0 < b.h → b.h ≤ max_wh →
      tauBoxEst < s2 → s2 < s1 →
      nmsClassOffset [(b, c1, s1), (b, c2, s2)] = [0, 1]) ∧
    (∀ (b1 b2 : Box) (c1 c2 : Nat) (s1 s2 : ℚ),
      tauBoxEst < s2 → s2 < s1 → (2 : ℚ) / 5 < iou b1 b2 →
      nmsPlain [(b1, c1, s1), (b2, c2, s2)] = [0]) := by
  refine ⟨fun b1 b2 c s1 s2 h2 h21 hiou => ?_, fun b c1 c2 s1 s2 hne hw0 hw hh0 hh h2 h21 => ?_,
    fun b1 b2 c1 c2 s1 s2 h2 h21 hiou => ?_⟩
  · show nmsBoxes [(offsetBox c b1, s1), (offsetBox c b2, s2)] tauBoxEst 9 20 = [0]
    rw [nmsBoxes_pair _ _ _ _ _ _ _ (lt_trans h2 h21) h2 h21]
    rw [if_neg]
    intro htrue
    have hle := (iouLeB_iff (offsetBox c b1) (offsetBox c b2) 9 20 (by norm_num)
      (by norm_num)).mp htrue
    rw [iou_offset_eq] at hle
    have : ((9 : Int) : ℚ) / ((20 : Int) : ℚ) = (9 : ℚ) / 20 := by norm_num
    rw [this] at hle
    exact absurd hiou (not_lt.mpr hle)
  · show nmsBoxes [(offsetBox c1 b, s1), (offsetBox c2 b, s2)] tauBoxEst 9 20 = [0, 1]
    rw [nmsBoxes_pair _ _ _ _ _ _ _ (lt_trans h2 h21) h2 h21]
    rw [if_pos]
    have hw7 : b.w ≤ 7680 := by simpa [max_wh] using hw
    have hh7 : b.h ≤ 7680 := by simpa [max_wh] using hh
    have hiw : interW (offsetBox c1 b) (offsetBox c2 b) ≤ 0 := by
      simp only [interW, offsetBox, max_wh]
      omega
    have hia : interArea (offsetBox c1 b) (offsetBox c2 b) = 0 := by
      simp only [interArea]
      rw [max_eq_left hiw, zero_mul]
    unfold iouLeB
    by_cases hu : unionArea (offsetBox c1 b) (offsetBox c2 b) ≤ 0
    · rw [if_pos hu]
    · rw [if_neg hu]
      apply decide_eq_true
      rw [hia, zero_mul]
      have : 0 < unionArea (offsetBox c1 b) (offsetBox c2 b) := lt_of_not_le hu
      omega
  · show nmsBoxes [(b1, s1), (b2, s2)] tauBoxEst 2 5 = [0]
    rw [nmsBoxes_pair _ _ _ _ _ _ _ (lt_trans h2 h21) h2 h21]
    rw [if_neg]
    intro htrue
    have hle := (iouLeB_iff b1 b2 2 5 (by norm_num) (by norm_num)).mp htrue
    have : ((2 : Int) : ℚ) / ((5 : Int) : ℚ) = (2 : ℚ) / 5 := by norm_num
    rw [this] at hle
    exact absurd hiou (not_lt.mpr hle)

theorem C1_nms_by_class_witness :
    nmsClassOffset [(⟨0, 0, 10, 10⟩, 3, mkRat 9 10), (⟨0, 0, 10, 10⟩, 3, mkRat 1 2)] = [0] ∧
    nmsClassOffset [(⟨0, 0, 10, 10⟩, 0, mkRat 9 10), (⟨0, 0, 10, 10⟩, 1, mkRat 1 2)] = [0, 1] ∧
    nmsPlain [(⟨0, 0, 10, 10⟩, 0, mkRat 9 10), (⟨0, 0, 10, 10⟩, 1, mkRat 1 2)] = [0] := by
  refine ⟨C1_nms_by_class.1 _ _ 3 _ _ (by decide) (by decide) ?_,
    C1_nms_by_class.2.1 _ 0 1 _ _ (by decide) (by decide) (by decide) (by decide) (by decide)
      (by decide) (by decide),
    C1_nms_by_class.2.2 _ _ 0 1 _ _ (by decide) (by decide) ?_⟩
  · have h1 : iou ⟨0, 0, 10, 10⟩ ⟨0, 0, 10, 10⟩ = 1 := by
      norm_num [iou, unionArea, interArea, interW, interH, boxArea]
    rw [h1]; norm_num
  · have h1 : iou ⟨0, 0, 10, 10⟩ ⟨0, 0, 10, 10⟩ = 1 := by
      norm_num [iou, unionArea, interArea, interW, interH, boxArea]
    rw [h1]; norm_num

/-- C7: when no anchor clears the confidence threshold, the frame does not fail:
the NMS call receives and safely returns an empty list, the set of detections is
empty, and the rendering step produces no overlays for that frame. -/
theorem C7_empty_frame_safe (t : Tensor) (origW origH inW inH : ℚ)
    (h : postprocess tauBoxEst t = []) :
    nmsClassOffset [] = [] ∧ overlaysBoxEst t origW origH inW inH = [] := by
  constructor
  · rfl
  · simp only [overlaysBoxEst, h]
    rfl

set_option maxRecDepth 100000 in
theorem C7_empty_frame_safe_witness :
    overlaysBoxEst (⟨2, 84, fun _ _ => 0⟩ : Tensor) 640 480 640 640 = [] :=
  (C7_empty_frame_safe (⟨2, 84, fun _ _ => 0⟩ : Tensor) 640 480 640 640 (by decide)).2

/-- C8: for a non-empty set of post-threshold boxes, the rescaling step picks its
scale by the heuristic "maximum raw coordinate ≤ 2.0": if the maximum coordinate is
at most 2 every center-form coordinate is multiplied by the original frame
width/height, otherwise by the ratio of original frame size to model input size,
and each box is then converted from center-form to corner-form. -/
theorem C8_rescale_heuristic (boxes : List (ℚ × ℚ × ℚ × ℚ)) (origW origH inW inH : ℚ)
    (hne : boxes ≠ []) :
    (maxCoords boxes ≤ 2 →
      rescaleBoxes boxes origW origH inW inH = boxes.map (specNormalizedRescale origW origH)) ∧
    (2 < maxCoords boxes →
      rescaleBoxes boxes origW origH inW inH =
        boxes.map (specPixelRescale origW origH inW inH)) := by
  have hemp : boxes.isEmpty = false := by
    cases boxes with
    | nil => exact absurd rfl hne
    | cons b bs => rfl
  constructor
  · intro hle
    have hN : isNormalizedHeur boxes = true := by
      simp only [isNormalizedHeur, hemp, if_false]
      exact decide_eq_true hle
    simp only [rescaleBoxes, hN]
    apply List.map_congr_left
    intro b _
    rfl
  · intro hgt
    have hN : isNormalizedHeur boxes = false := by
      simp only [isNormalizedHeur, hemp, if_false]
      simpa using not_le.mpr hgt
    simp only [rescaleBoxes, hN]
    apply List.map_congr_left
    intro b _
    rfl

theorem C8_rescale_heuristic_witness :
    rescaleBoxes [(mkRat 1 2, mkRat 1 2, mkRat 1 4, mkRat 1 4)] 640 480 640 640 =
      [(mkRat 1 2, mkRat 1 2, mkRat 1 4, mkRat 1 4)].map (specNormalizedRescale 640 480) ∧
    rescaleBoxes [((320 : ℚ), (320 : ℚ), (100 : ℚ), (100 : ℚ))] 640 480 640 640 =
      [((320 : ℚ), (320 : ℚ), (100 : ℚ), (100 : ℚ))].map (specPixelRescale 640 480 640 640) :=
  ⟨(C8_rescale_heuristic [(mkRat 1 2, mkRat 1 2, mkRat 1 4, mkRat 1 4)] 640 480 640 640
      (by decide)).1 (by decide),
   (C8_rescale_heuristic [((320 : ℚ), (320 : ℚ), (100 : ℚ), (100 : ℚ))] 640 480 640 640
      (by decide)).2 (by decide)⟩

theorem labelDict_spec (n : String) (t : PFile) : ∀ (txts : List PFile),
    labelDict txts n = some t →
    t ∈ txts ∧ t.stem = n ∧ isMetaStem t.stem = false := by
  intro txts
  induction txts with
  | nil => intro h; exact absurd h (by simp [labelDict])
  | cons u rest ih =>
    intro h
    simp only [labelDict] at h
    cases hr : labelDict rest n with
    | some v =>
      rw [hr] at h
      obtain ⟨hm, hs, hmeta⟩ := ih (hr.trans (by injection h with h2; rw [h2]))
      exact ⟨List.mem_cons_of_mem _ hm, hs, hmeta⟩
    | none =>
      rw [hr] at h
      by_cases hc : (!isMetaStem u.stem && u.stem == n) = true
      · rw [if_pos hc] at h
        injection h with h2
        subst h2
        rw [Bool.and_eq_true, Bool.not_eq_true', beq_iff_eq] at hc
        exact ⟨List.mem_cons_self _ _, hc.2, hc.1⟩
      · rw [if_neg hc] at h
        exact Option.noConfusion h

theorem pairsOf_mem (images txts : List PFile) (p : PFile × PFile)
    (h : p ∈ pairsOf images txts) :
    p.1 ∈ images ∧ labelDict txts p.1.stem = some p.2 := by
  obtain ⟨img, himg, hf⟩ := List.mem_filterMap.mp h
  obtain ⟨t, ht, hpt⟩ := Option.map_eq_some'.mp hf
  cases hpt
  exact ⟨himg, ht⟩

theorem pairsOf_nodup (images txts : List PFile) (h : images.Nodup) :
    (pairsOf images txts).Nodup := by
  apply List.Nodup.filterMap _ h
  intro a a' b hb hb'
  obtain ⟨t, _, hpt⟩ := Option.map_eq_some'.mp hb
  obtain ⟨t', _, hpt'⟩ := Option.map_eq_some'.mp hb'
  have h1 : b.1 = a := by rw [← hpt]
  have h2 : b.1 = a' := by rw [← hpt']
  rw [← h1, ← h2]

/-- C9: for any permutation of the valid image/label pairs found in one archive,
the split assigns the first 350 pairs to train and the next up-to-150 to val:
train holds at most 350 pairs, val at most 150, the two are disjoint (when the
image list has no duplicates), and everything placed in either split is a pair of
an image from the archive with a matching non-metadata label file of the same
basename stem. -/
theorem C9_split (images txts : List PFile) (shuffled : List (PFile × PFile))
    (hperm : shuffled.Perm (pairsOf images txts)) (hnodup : images.Nodup) :
    (trainPairs shuffled).length ≤ 350 ∧
    (valPairs shuffled).length ≤ 150 ∧
    (∀ p, p ∈ trainPairs shuffled → p ∉ valPairs shuffled) ∧
    (∀ p, p ∈ trainPairs shuffled ++ valPairs shuffled →
      p ∈ pairsOf images txts ∧ p.1 ∈ images ∧
      labelDict txts p.1.stem = some p.2 ∧
      p.2 ∈ txts ∧ p.2.stem = p.1.stem ∧ isMetaStem p.2.stem = false) := by
  have hsn : shuffled.Nodup := hperm.symm.nodup (pairsOf_nodup images txts hnodup)
  refine ⟨List.length_take_le _ _, List.length_take_le _ _, ?_, ?_⟩
  · intro p hp hpv
    have hd := List.disjoint_take_drop hsn (le_refl num_train)
    exact hd hp (List.take_subset _ _ hpv)
  · intro p hp
    have hps : p ∈ shuffled := by
      rcases List.mem_append.mp hp with h | h
      · exact List.take_subset _ _ h
      · exact List.drop_subset _ _ (List.take_subset _ _ h)
    have hpp : p ∈ pairsOf images txts := hperm.mem_iff.mp hps
    obtain ⟨himg, hld⟩ := pairsOf_mem images txts p hpp
    obtain ⟨htm, hts, hmeta⟩ := labelDict_spec p.1.stem p.2 txts hld
    exact ⟨hpp, himg, hld, htm, hts, hmeta⟩

theorem C9_split_witness :
    (trainPairs (pairsOf [(⟨[], "a", ".jpg"⟩ : PFile)] [(⟨[], "a", ".txt"⟩ : PFile)])).length ≤ 350 ∧
    (valPairs (pairsOf [(⟨[], "a", ".jpg"⟩ : PFile)] [(⟨[], "a", ".txt"⟩ : PFile)])).length ≤ 150 :=
  ⟨(C9_split [⟨[], "a", ".jpg"⟩] [⟨[], "a", ".txt"⟩] _ (List.Perm.refl _) (by decide)).1,
   (C9_split [⟨[], "a", ".jpg"⟩] [⟨[], "a", ".txt"⟩] _ (List.Perm.refl _) (by decide)).2.1⟩

theorem splitAux_tokens : ∀ (s acc : List Char),
    (∀ c ∈ acc, c.isWhitespace = false) →
    ∀ t ∈ splitAux acc s, t ≠ [] ∧ ∀ c ∈ t, c.isWhitespace = false := by
  intro s
  induction s with
  | nil =>
    intro acc hacc t ht
    simp only [splitAux] at ht
    by_cases he : acc.isEmpty = true
    · rw [if_pos he] at ht
      cases ht
    · rw [if_neg he] at ht
      rw [List.mem_singleton] at ht
      subst ht
      refine ⟨fun hnil => ?_, fun c hc => hacc c (List.mem_reverse.mp hc)⟩
      rw [List.reverse_eq_nil_iff] at hnil
      rw [hnil] at he
      exact he rfl
  | cons c rest ih =>
    intro acc hacc t ht
    simp only [splitAux] at ht
    by_cases hw : c.isWhitespace = true
    · rw [if_pos hw] at ht
      by_cases he : acc.isEmpty = true
      · rw [if_pos he] at ht
        exact ih [] (by simp) t ht
      · rw [if_neg he] at ht
        rcases List.mem_cons.mp ht with h | h
        · subst h
          refine ⟨fun hnil => ?_, fun d hd => hacc d (List.mem_reverse.mp hd)⟩
          rw [List.reverse_eq_nil_iff] at hnil
          rw [hnil] at he
          exact he rfl
        · exact ih [] (by simp) t h
    · rw [if_neg hw] at ht
      refine ih (c :: acc) ?_ t ht
      intro d hd
      rcases List.mem_cons.mp hd with h | h
      · subst h
        revert hw
        cases d.isWhitespace <;> simp
      · exact hacc d h

theorem splitAux_append (t : List Char) : ∀ (acc s : List Char),
    (∀ c ∈ t, c.isWhitespace = false) →
    splitAux acc (t ++ s) = splitAux (t.reverse ++ acc) s := by
  induction t with
  | nil => intro acc s _; rfl
  | cons c t2 ih =>
    intro acc s hws
    have hc : c.isWhitespace = false := hws c (List.mem_cons_self _ _)
    simp only [List.cons_append, splitAux, hc, Bool.false_eq_true, if_false, List.append_eq]
    rw [ih (c :: acc) s (fun d hd => hws d (List.mem_cons_of_mem _ hd))]
    congr 1
    simp [List.reverse_cons, List.append_assoc]

theorem pySplit_joinSp : ∀ (ts : List (List Char)),
    (∀ t ∈ ts, t ≠ [] ∧ ∀ c ∈ t, c.isWhitespace = false) →
    pySplit (joinSp ts) = ts := by
  intro ts
  induction ts with
  | nil => intro _; rfl
  | cons t ts ih =>
    intro hts
    obtain ⟨htne, htws⟩ := hts t (List.mem_cons_self _ _)
    have hrevne : t.reverse.isEmpty ≠ true := by
      simp only [ne_eq, List.isEmpty_iff, List.reverse_eq_nil_iff]
      exact htne
    cases ts with
    | nil =>
      show splitAux [] (joinSp [t]) = [t]
      have hj : joinSp [t] = t := rfl
      rw [hj]
      have h1 : splitAux [] (t ++ []) = splitAux (t.reverse ++ []) [] :=
        splitAux_append t [] [] htws
      rw [List.append_nil, List.append_nil] at h1
      rw [h1]
      simp only [splitAux]
      rw [if_neg hrevne, List.reverse_reverse]
    | cons t2 ts2 =>
      show splitAux [] (joinSp (t :: t2 :: ts2)) = t :: t2 :: ts2
      have hj : joinSp (t :: t2 :: ts2) = t ++ ' ' :: joinSp (t2 :: ts2) := rfl
      rw [hj]
      have h1 := splitAux_append t [] (' ' :: joinSp (t2 :: ts2)) htws
      rw [List.append_nil] at h1
      rw [h1]
      simp only [splitAux]
      rw [if_pos (by decide), if_neg hrevne, List.reverse_reverse]
      congr 1
      exact ih (fun u hu => hts u (List.mem_cons_of_mem _ hu))

/-- C10: every line written by the dataset-merge label rewrite has its first
whitespace-separated field equal to the class-id token (the original class field
is overwritten) while the remaining fields of the source line are preserved
unchanged in order; the id token — `str(class_id)` in the code — is non-empty and
whitespace-free. -/
theorem C10_merge_rewrites_class (idTok : List Char) (lines : List (List Char))
    (hid1 : idTok ≠ []) (hid2 : ∀ c ∈ idTok, c.isWhitespace = false) :
    ∀ out ∈ mergeLines idTok lines, ∃ line ∈ lines,
      processLine idTok line = some out ∧
      pySplit out = idTok :: (pySplit (pyStrip line)).tail := by
  intro out hout
  obtain ⟨line, hline, hp⟩ := List.mem_filterMap.mp hout
  refine ⟨line, hline, hp, ?_⟩
  unfold processLine at hp
  cases hsp : pySplit (pyStrip line) with
  | nil =>
    rw [hsp] at hp
    exact Option.noConfusion hp
  | cons p rest =>
    rw [hsp] at hp
    injection hp with hp2
    subst hp2
    rw [pySplit_joinSp]
    · rfl
    · intro u hu
      rcases List.mem_cons.mp hu with h | h
      · subst h
        exact ⟨hid1, hid2⟩
      · have hu2 : u ∈ pySplit (pyStrip line) := by
          rw [hsp]
          exact List.mem_cons_of_mem _ h
        exact splitAux_tokens (pyStrip line) [] (by simp) u hu2

theorem C10_merge_rewrites_class_witness :
    pySplit ['5', ' ', '0', '.', '1'] =
      ['5'] :: (pySplit (pyStrip ['3', ' ', '0', '.', '1'])).tail := by
  obtain ⟨l, hl, _, hsplit⟩ :=
    C10_merge_rewrites_class ['5'] [['3', ' ', '0', '.', '1']] (by decide) (by decide)
      ['5', ' ', '0', '.', '1'] (by decide)
  rw [List.mem_singleton] at hl
  rw [hl] at hsplit
  exact hsplit

end IRIS
